import Mathlib

/-!
Verification of the core of the `going` web scaffold: the credential
hasher (`internal/auth/password.go`) and the session store
(`internal/session/session.go`).

Modelling conventions: Go strings are lists of characters, byte slices
are lists of naturals below 256, `time.Time` instants and durations are
integers.  The external key-derivation function `argon2.IDKey` is a
parameter of the development; the salts and session ids drawn from the
random source are passed as explicit arguments.
-/

namespace Going

/-- Error values of password.go.  `invalidHash` models `ErrInvalidHash`,
`incompatibleVersion` models `ErrIncompatibleVersion`; `scanFailure`
stands for an error returned by `fmt.Sscanf` and `corruptBase64` for a
`base64.CorruptInputError`, both forwarded verbatim by `decodeHash`. -/
inductive HashError
  | invalidHash
  | incompatibleVersion
  | scanFailure
  | corruptBase64
deriving DecidableEq, Repr

/-- The alphabet of `encoding/base64.StdEncoding`, shared by
`RawStdEncoding`. -/
def b64Alphabet : List Char :=
  "ABCDEFGHIJKLMNOPQRSTUVWXYZabcdefghijklmnopqrstuvwxyz0123456789+/".toList

/-- Character for a sextet value. -/
def b64Char (n : Nat) : Char := b64Alphabet.getD n 'A'

/-- Decode map of the alphabet: position of a character, if any. -/
def b64Index (c : Char) : Option Nat := b64Alphabet.indexOf? c

/-- Sextet stream produced by `base64.RawStdEncoding.EncodeToString`:
each 3-byte group yields 4 sextets; a 2-byte tail yields 3 sextets and a
1-byte tail 2 sextets (no padding). -/
def toSextets : List Nat → List Nat
  | b0 :: b1 :: b2 :: rest =>
      b0 / 4 :: (b0 % 4 * 16 + b1 / 16) :: (b1 % 16 * 4 + b2 / 64) :: b2 % 64 ::
        toSextets rest
  | [b0, b1] => [b0 / 4, b0 % 4 * 16 + b1 / 16, b1 % 16 * 4]
  | [b0] => [b0 / 4, b0 % 4 * 16]
  | [] => []

/-- `base64.RawStdEncoding.EncodeToString`. -/
def base64Encode (bs : List Nat) : List Char := (toSextets bs).map b64Char

/-- Regrouping of a sextet stream into bytes, the inverse direction of
`toSextets`.  A stream of length ≡ 1 (mod 4) is malformed.  Go's default
decoder does not reject nonzero trailing bits, so none are checked. -/
def fromSextets : List Nat → Option (List Nat)
  | s0 :: s1 :: s2 :: s3 :: rest =>
      (fromSextets rest).map fun bs =>
        (s0 * 4 + s1 / 16) :: (s1 % 16 * 16 + s2 / 4) :: (s2 % 4 * 64 + s3) :: bs
  | [s0, s1, s2] => some [s0 * 4 + s1 / 16, s1 % 16 * 16 + s2 / 4]
  | [s0, s1] => some [s0 * 4 + s1 / 16]
  | [_] => none
  | [] => some []

/-- Sextet values of a character list; fails on a character outside the
alphabet (Go's `CorruptInputError`). -/
def charsToSextets : List Char → Option (List Nat)
  | [] => some []
  | c :: cs =>
    match b64Index c, charsToSextets cs with
    | some s, some ss => some (s :: ss)
    | _, _ => none

/-- `base64.RawStdEncoding.DecodeString`.  Go's decoder drops newline
characters before interpreting the input. -/
def base64Decode (s : List Char) : Option (List Nat) :=
  (charsToSextets (s.filter fun c => c != '\n' && c != '\r')).bind fromSextets

/-- `strings.Split s sep` for a single-character separator. -/
def splitChar (sep : Char) : List Char → List (List Char)
  | [] => [[]]
  | c :: cs =>
    if c = sep then [] :: splitChar sep cs
    else
      match splitChar sep cs with
      | [] => [[c]]
      | t :: ts => (c :: t) :: ts

/-- Value of a decimal digit character. -/
def digitVal (c : Char) : Option Nat :=
  if '0'.toNat ≤ c.toNat ∧ c.toNat ≤ '9'.toNat then some (c.toNat - '0'.toNat)
  else none

/-- Maximal run of further decimal digits, accumulating the value. -/
def scanDigits : Nat → List Char → Nat × List Char
  | acc, [] => (acc, [])
  | acc, c :: cs =>
    match digitVal c with
    | some d => scanDigits (acc * 10 + d) cs
    | none => (acc, c :: cs)

/-- At least one decimal digit, maximal munch, value and remainder. -/
def parseDec : List Char → Option (Nat × List Char)
  | [] => none
  | c :: cs =>
    match digitVal c with
    | some d => some (scanDigits d cs)
    | none => none

/-- Leading spaces skipped by a scanning verb. -/
def skipSpaces : List Char → List Char
  | [] => []
  | c :: cs => if c = ' ' ∨ c = '\t' then skipSpaces cs else c :: cs

/-- The verb `%d` scanned into a Go `int`: skip spaces, optional sign,
at least one decimal digit; a value outside 64-bit two's complement
range fails.  Scanning stops at the first non-digit. -/
def scanInt (s : List Char) : Option (Int × List Char) :=
  match skipSpaces s with
  | '-' :: rest =>
    (parseDec rest).bind fun p =>
      if p.1 ≤ 2 ^ 63 then some (-(p.1 : Int), p.2) else none
  | '+' :: rest =>
    (parseDec rest).bind fun p =>
      if p.1 < 2 ^ 63 then some ((p.1 : Int), p.2) else none
  | rest =>
    (parseDec rest).bind fun p =>
      if p.1 < 2 ^ 63 then some ((p.1 : Int), p.2) else none

/-- The verb `%d` scanned into an unsigned Go integer of the given bit
width: no sign accepted, out-of-range values fail. -/
def scanUint (bits : Nat) (s : List Char) : Option (Nat × List Char) :=
  (parseDec (skipSpaces s)).bind fun p =>
    if p.1 < 2 ^ bits then some p else none

/-- Literal (non-verb) characters of an `Sscanf` format, matched
exactly against the input. -/
def dropLit : List Char → List Char → Option (List Char)
  | [], s => some s
  | _ :: _, [] => none
  | l :: ls, c :: cs => if c = l then dropLit ls cs else none

/-- `fmt.Sscanf(field, "v=%d", &version)` with `version` a Go `int`;
input remaining after the format is satisfied is ignored. -/
def scanVersion (s : List Char) : Option Int :=
  (dropLit "v=".toList s).bind fun r => (scanInt r).map Prod.fst

/-- `fmt.Sscanf(field, "m=%d,t=%d,p=%d", &p.memory, &p.time,
&p.threads)` with `memory uint32`, `time uint32`, `threads uint8`. -/
def scanParams (s : List Char) : Option (Nat × Nat × Nat) :=
  (dropLit "m=".toList s).bind fun r1 =>
  (scanUint 32 r1).bind fun m =>
  (dropLit ",t=".toList m.2).bind fun r2 =>
  (scanUint 32 r2).bind fun t =>
  (dropLit ",p=".toList t.2).bind fun r3 =>
  (scanUint 8 r3).map fun p => (m.1, t.1, p.1)

/-- The `params` struct of password.go (Go types: `memory uint32`,
`time uint32`, `threads uint8`, `keyLen uint32`, `saltLength uint32`). -/
structure Params where
  memory : Nat
  time : Nat
  threads : Nat
  keyLen : Nat
  saltLength : Nat
deriving DecidableEq, Repr

/-- `defaultParams` of password.go. -/
def defaultParams : Params :=
  { memory := 64 * 1024, time := 3, threads := 4, keyLen := 32, saltLength := 16 }

/-- `argon2.Version` of golang.org/x/crypto/argon2 (0x13 = 19). -/
def argon2Version : Int := 19

/-- Shape of the external key-derivation function `argon2.IDKey`:
password, salt, time cost, memory cost, parallelism, key length.  The
library is outside the repository, so the development is parameterized
over it. -/
abbrev KDF := String → List Nat → Nat → Nat → Nat → Nat → List Nat

/-- The contract of `argon2.IDKey` where the library returns: the
output is a byte string of the requested key length.  (With
`keyLen = 0` the library panics instead of returning — see
`idKeyPanics` below; this development invokes the contract only at key
length 32, where it holds.) -/
def IsKDF (idKey : KDF) : Prop :=
  ∀ pw salt t m th kl,
    (idKey pw salt t m th kl).length = kl ∧ ∀ b ∈ idKey pw salt t m th kl, b < 256

/-- Decimal rendering of the `%d` verb of `fmt.Sprintf`. -/
def natToChars (n : Nat) : List Char := Nat.toDigits 10 n

/-- `HashPassword` of password.go.  The call to `crypto/rand.Read` is
modelled by passing the drawn salt explicitly (its error branch fires
only when the random source fails, which is outside this model), so the
success path embedded here is total.  The result is the formatted
string `$argon2id$v=%d$m=%d,t=%d,p=%d$<b64Salt>$<b64Hash>`. -/
def HashPassword (idKey : KDF) (password : String) (salt : List Nat) : List Char :=
  let hash := idKey password salt defaultParams.time defaultParams.memory
    defaultParams.threads defaultParams.keyLen
  let b64Salt := base64Encode salt
  let b64Hash := base64Encode hash
  ['$'] ++ "argon2id".toList ++
    ['$'] ++ "v=".toList ++ natToChars argon2Version.toNat ++
    ['$'] ++ "m=".toList ++ natToChars defaultParams.memory ++
    ",t=".toList ++ natToChars defaultParams.time ++
    ",p=".toList ++ natToChars defaultParams.threads ++
    ['$'] ++ b64Salt ++ ['$'] ++ b64Hash

/-- `decodeHash` of password.go: split on `$`, check the 6-part shape
with empty leading part and the `argon2id` tag (else `ErrInvalidHash`),
scan the version (mismatch is `ErrIncompatibleVersion`), scan the cost
parameters, base64-decode salt and key; `saltLength` and `keyLen` are
set from the decoded lengths.  Scanner and base64 errors are forwarded
as such, not replaced by `ErrInvalidHash`. -/
def decodeHash (encodedHash : List Char) :
    Except HashError (Params × List Nat × List Nat) :=
  match splitChar '$' encodedHash with
  | [p0, p1, p2, p3, p4, p5] =>
    if p0 ≠ [] ∨ p1 ≠ "argon2id".toList then .error .invalidHash
    else
      match scanVersion p2 with
      | none => .error .scanFailure
      | some version =>
        if version ≠ argon2Version then .error .incompatibleVersion
        else
          match scanParams p3 with
          | none => .error .scanFailure
          | some (m, t, th) =>
            match base64Decode p4 with
            | none => .error .corruptBase64
            | some salt =>
              match base64Decode p5 with
              | none => .error .corruptBase64
              | some hash =>
                .ok ({ memory := m, time := t, threads := th,
                       keyLen := hash.length, saltLength := salt.length },
                     salt, hash)
  | _ => .error .invalidHash

/-- `crypto/subtle.ConstantTimeCompare`: 1 when the two byte strings
have equal length and contents, 0 otherwise. -/
def constantTimeCompare (x y : List Nat) : Nat :=
  if x.length = y.length then
    if (x.zip y).all fun p => p.1 == p.2 then 1 else 0
  else 0

/-- `VerifyPassword` of password.go. -/
def VerifyPassword (idKey : KDF) (password : String) (encodedHash : List Char) :
    Bool × Option HashError :=
  match decodeHash encodedHash with
  | .error err => (false, some err)
  | .ok (p, salt, hash) =>
    let hashToCompare := idKey password salt p.time p.memory p.threads p.keyLen
    if constantTimeCompare hash hashToCompare = 1 then (true, none)
    else (false, none)

/-- Modelled from golang.org/x/crypto/argon2 (external library):
`deriveKey` panics when `time < 1` or when `threads < 1`; and with
`keyLen = 0` the final `blake2bHash` calls `blake2b.New(0, nil)`, whose
error is discarded, so the following `Write` on the nil hash panics.
`true` means the call to `argon2.IDKey` does not return. -/
def idKeyPanics (t th kl : Nat) : Bool := t == 0 || th == 0 || kl == 0

/-- `VerifyPassword` of password.go with the panic behavior of the
external `argon2.IDKey` call made explicit: `none` means the
verification call crashes (a Go panic), `some` is the pair it
returns.  `VerifyPassword` above is the restriction to the returning
executions. -/
def VerifyPasswordExec (idKey : KDF) (password : String)
    (encodedHash : List Char) : Option (Bool × Option HashError) :=
  match decodeHash encodedHash with
  | .error err => some (false, some err)
  | .ok (p, salt, hash) =>
    if idKeyPanics p.time p.threads p.keyLen then none
    else
      let hashToCompare := idKey password salt p.time p.memory p.threads p.keyLen
      if constantTimeCompare hash hashToCompare = 1 then some (true, none)
      else some (false, none)

/-- The `Session` struct of session.go: `ID`, `Values` (a
`map[string]interface{}`, modelled with an arbitrary value type), and
the absolute expiry instant `ExpiresAt` (`time.Time`, an integer
timestamp here). -/
structure Session (α : Type) where
  ID : String
  Values : List (String × α)
  ExpiresAt : Int
deriving DecidableEq, Repr

/-- The `Manager` struct of session.go: the `sessions` map (association
list keyed by id) and the configured `expiration` duration.  The
`config` field and the mutex carry no data relevant here. -/
structure Manager (α : Type) where
  sessions : List (String × Session α)
  expiration : Int
deriving DecidableEq, Repr

variable {α : Type}

/-- Go map indexing `m.sessions[sessionID]`. -/
def lookupSession (l : List (String × Session α)) (sid : String) :
    Option (Session α) :=
  match l with
  | [] => none
  | (k, s) :: rest => if k = sid then some s else lookupSession rest sid

/-- In-place update of the session struct a map entry points to (Go
stores `*Session`, so mutating the struct updates the map's view). -/
def setSession (l : List (String × Session α)) (sid : String) (s : Session α) :
    List (String × Session α) :=
  match l with
  | [] => []
  | (k, v) :: rest =>
    if k = sid then (k, s) :: rest else (k, v) :: setSession rest sid s

/-- Go map assignment `m.sessions[sessionID] = session`. -/
def insertSession (l : List (String × Session α)) (sid : String) (s : Session α) :
    List (String × Session α) :=
  if (lookupSession l sid).isSome then setSession l sid s else (sid, s) :: l

/-- `CreateSession` of session.go at instant `now`, the freshly drawn id
passed explicitly (`generateSessionID` reads it from the random source).
The goroutine it spawns runs `cleanupExpiredSessions`, embedded below as
its own operation. -/
def CreateSession (m : Manager α) (sessionID : String) (now : Int) :
    Session α × Manager α :=
  let session : Session α :=
    { ID := sessionID, Values := [], ExpiresAt := now + m.expiration }
  (session, { m with sessions := insertSession m.sessions sessionID session })

/-- `GetSession` of session.go at instant `now`: map lookup, the expiry
test `session.ExpiresAt.Before(time.Now())`, and on success the sliding
refresh `session.ExpiresAt = time.Now().Add(m.expiration)` (the two
`time.Now()` calls are modelled as one instant).  `none` is the error
`"session not found or expired"` (NotFound). -/
def GetSession (m : Manager α) (sessionID : String) (now : Int) :
    Option (Session α) × Manager α :=
  match lookupSession m.sessions sessionID with
  | none => (none, m)
  | some session =>
    if session.ExpiresAt < now then (none, m)
    else
      let refreshed := { session with ExpiresAt := now + m.expiration }
      (some refreshed, { m with sessions := setSession m.sessions sessionID refreshed })

/-- `DeleteSession` of session.go. -/
def DeleteSession (m : Manager α) (sessionID : String) : Manager α :=
  { m with sessions := m.sessions.filter fun e => !(e.1 == sessionID) }

/-- `cleanupExpiredSessions` of session.go at instant `now`: delete
every entry with `session.ExpiresAt.Before(now)`. -/
def cleanupExpiredSessions (m : Manager α) (now : Int) : Manager α :=
  { m with sessions := m.sessions.filter fun e => !decide (e.2.ExpiresAt < now) }

/-- Synchronization-relevant steps of session.go operations, in source
order. -/
inductive StoreStep
  | rLock
  | rUnlock
  | wLock
  | wUnlock
  | readMap
  | writeMap
  | readExpiresAt
  | writeExpiresAt
deriving DecidableEq, Repr

/-- The step sequence of `GetSession`'s success path, session.go lines
60–70: `mu.RLock()`; read of `m.sessions[sessionID]`; `mu.RUnlock()`;
the expiry test reading `session.ExpiresAt`; the sliding-refresh write
to `session.ExpiresAt`. -/
def getSessionSuccessSteps : List StoreStep :=
  [.rLock, .readMap, .rUnlock, .readExpiresAt, .writeExpiresAt]

/-- The step sequence of `CreateSession`, session.go lines 48–50. -/
def createSessionSteps : List StoreStep :=
  [.wLock, .writeMap, .wUnlock]

/-- Write locks held after executing a prefix of steps. -/
def writeLocksHeld (l : List StoreStep) : Int :=
  l.foldl
    (fun n s =>
      match s with
      | .wLock => n + 1
      | .wUnlock => n - 1
      | _ => n)
    0

/-- Read locks held after executing a prefix of steps. -/
def readLocksHeld (l : List StoreStep) : Int :=
  l.foldl
    (fun n s =>
      match s with
      | .rLock => n + 1
      | .rUnlock => n - 1
      | _ => n)
    0


/-- A concrete stand-in for the external `argon2.IDKey`, used to
instantiate the `KDF` parameter on concrete inputs: the all-zero byte
string of the requested length. -/
def idKeyZero : KDF := fun _ _ _ _ _ kl => List.replicate kl 0

/-- A concrete stand-in KDF that depends on the password: the first
byte is the password's length (mod 256), the rest zero. -/
def idKeyLen : KDF := fun pw _ _ _ _ kl =>
  (List.replicate kl 0).set 0 (pw.length % 256)

/-- A store with lifetime 10 holding one session whose deadline 10 was
set at instant 0, so at instant 10 the elapsed time since the last
access equals the lifetime exactly. -/
def boundaryManager : Manager Nat :=
  { sessions := [("abc", { ID := "abc", Values := [], ExpiresAt := 10 })],
    expiration := 10 }

/-- A store with lifetime 120 holding one session created at instant 0. -/
def exampleManager : Manager Nat :=
  { sessions := [("abc", { ID := "abc", Values := [], ExpiresAt := 120 })],
    expiration := 120 }

/-- A store holding one session already expired at instant 5 and one
still live then. -/
def sweepManager : Manager Nat :=
  { sessions := [("a", { ID := "a", Values := [], ExpiresAt := 3 }),
                 ("b", { ID := "b", Values := [], ExpiresAt := 100 })],
    expiration := 50 }

/-! ### Base64 lemmas -/

theorem b64Index_b64Char : ∀ s, s < 64 → b64Index (b64Char s) = some s := by
  decide

theorem b64Char_not_newline :
    ∀ s, s < 64 → (b64Char s != '\n' && b64Char s != '\r') = true := by
  decide

theorem b64Char_ne_dollar : ∀ s, s < 64 → b64Char s ≠ '$' := by
  decide

theorem toSextets_lt :
    ∀ bs : List Nat, (∀ b ∈ bs, b < 256) → ∀ s ∈ toSextets bs, s < 64
  | b0 :: b1 :: b2 :: rest, h => by
    have h0 := h b0 (by simp)
    have h1 := h b1 (by simp)
    have h2 := h b2 (by simp)
    have hrec := toSextets_lt rest (fun b hb => h b (by simp [hb]))
    intro s hs
    simp only [toSextets, List.mem_cons] at hs
    rcases hs with rfl | rfl | rfl | rfl | hs
    · omega
    · omega
    · omega
    · omega
    · exact hrec s hs
  | [b0, b1], h => by
    have h0 := h b0 (by simp)
    have h1 := h b1 (by simp)
    intro s hs
    simp only [toSextets, List.mem_cons, List.not_mem_nil, or_false] at hs
    rcases hs with rfl | rfl | rfl <;> omega
  | [b0], h => by
    have h0 := h b0 (by simp)
    intro s hs
    simp only [toSextets, List.mem_cons, List.not_mem_nil, or_false] at hs
    rcases hs with rfl | rfl <;> omega
  | [], _ => by simp [toSextets]

theorem fromSextets_toSextets :
    ∀ bs : List Nat, (∀ b ∈ bs, b < 256) → fromSextets (toSextets bs) = some bs
  | b0 :: b1 :: b2 :: rest, h => by
    have h0 := h b0 (by simp)
    have h1 := h b1 (by simp)
    have h2 := h b2 (by simp)
    have hrec := fromSextets_toSextets rest (fun b hb => h b (by simp [hb]))
    simp only [toSextets, fromSextets, hrec, Option.map_some]
    have e0 : b0 / 4 * 4 + (b0 % 4 * 16 + b1 / 16) / 16 = b0 := by omega
    have e1 : (b0 % 4 * 16 + b1 / 16) % 16 * 16 + (b1 % 16 * 4 + b2 / 64) / 4 = b1 := by
      omega
    have e2 : (b1 % 16 * 4 + b2 / 64) % 4 * 64 + b2 % 64 = b2 := by omega
    rw [e0, e1, e2]
    simp
  | [b0, b1], h => by
    have h0 := h b0 (by simp)
    have h1 := h b1 (by simp)
    simp only [toSextets, fromSextets]
    have e0 : b0 / 4 * 4 + (b0 % 4 * 16 + b1 / 16) / 16 = b0 := by omega
    have e1 : (b0 % 4 * 16 + b1 / 16) % 16 * 16 + b1 % 16 * 4 / 4 = b1 := by omega
    rw [e0, e1]
  | [b0], h => by
    have h0 := h b0 (by simp)
    simp only [toSextets, fromSextets]
    have e0 : b0 / 4 * 4 + b0 % 4 * 16 / 16 = b0 := by omega
    rw [e0]
  | [], _ => by simp [toSextets, fromSextets]

theorem charsToSextets_map :
    ∀ l : List Nat, (∀ s ∈ l, s < 64) → charsToSextets (l.map b64Char) = some l
  | [], _ => by simp [charsToSextets]
  | s :: rest, h => by
    have hs := h s (by simp)
    have hrec := charsToSextets_map rest (fun x hx => h x (by simp [hx]))
    simp only [List.map_cons, charsToSextets, b64Index_b64Char s hs, hrec]

theorem base64Decode_base64Encode (bs : List Nat) (h : ∀ b ∈ bs, b < 256) :
    base64Decode (base64Encode bs) = some bs := by
  have h64 := toSextets_lt bs h
  unfold base64Decode base64Encode
  rw [List.filter_eq_self.mpr]
  · rw [charsToSextets_map _ h64]
    simp [fromSextets_toSextets bs h]
  · intro c hc
    obtain ⟨s, hs, rfl⟩ := List.mem_map.mp hc
    exact b64Char_not_newline s (h64 s hs)

theorem base64Encode_inj {a b : List Nat} (ha : ∀ x ∈ a, x < 256)
    (hb : ∀ x ∈ b, x < 256) (h : base64Encode a = base64Encode b) : a = b := by
  have := base64Decode_base64Encode a ha
  rw [h, base64Decode_base64Encode b hb] at this
  exact (Option.some_inj.mp this).symm

theorem dollar_not_mem_base64Encode (bs : List Nat) (h : ∀ b ∈ bs, b < 256) :
    '$' ∉ base64Encode bs := by
  intro hc
  obtain ⟨s, hs, he⟩ := List.mem_map.mp hc
  exact b64Char_ne_dollar s (toSextets_lt bs h s hs) he

/-! ### `strings.Split` lemmas -/

theorem splitChar_sep_cons (sep : Char) (b : List Char) :
    splitChar sep (sep :: b) = [] :: splitChar sep b := by
  simp [splitChar]

theorem splitChar_ne_nil (sep : Char) : ∀ l : List Char, splitChar sep l ≠ []
  | [] => by simp [splitChar]
  | c :: cs => by
    simp only [splitChar]
    split
    · simp
    · split
      · simp
      · simp

theorem splitChar_no_sep (sep : Char) :
    ∀ a : List Char, sep ∉ a → splitChar sep a = [a]
  | [], _ => rfl
  | c :: cs, h => by
    have hc : c ≠ sep := fun e => h (e ▸ List.mem_cons_self c cs)
    have hrec := splitChar_no_sep sep cs (fun e => h (List.mem_cons_of_mem c e))
    simp only [splitChar, if_neg hc, hrec]

theorem splitChar_append (sep : Char) :
    ∀ a b : List Char, sep ∉ a →
      splitChar sep (a ++ sep :: b) = a :: splitChar sep b
  | [], b, _ => by simp [splitChar]
  | c :: cs, b, h => by
    have hc : c ≠ sep := fun e => h (e ▸ List.mem_cons_self c cs)
    have hrec := splitChar_append sep cs b (fun e => h (List.mem_cons_of_mem c e))
    simp only [List.cons_append, splitChar, if_neg hc, List.append_eq, hrec]


/-! ### The encoded hash string -/

theorem hashPassword_eq (idKey : KDF) (pw : String) (salt : List Nat) :
    HashPassword idKey pw salt =
      '$' :: ("argon2id".toList ++ '$' :: ("v=19".toList ++ '$' ::
        ("m=65536,t=3,p=4".toList ++ '$' :: (base64Encode salt ++ '$' ::
          base64Encode (idKey pw salt 3 65536 4 32))))) := by
  unfold HashPassword
  simp only [List.append_assoc]
  rfl

theorem splitChar_hashPassword (idKey : KDF) (pw : String) (salt : List Nat)
    (hs : ∀ b ∈ salt, b < 256)
    (hk : ∀ b ∈ idKey pw salt 3 65536 4 32, b < 256) :
    splitChar '$' (HashPassword idKey pw salt) =
      [[], "argon2id".toList, "v=19".toList, "m=65536,t=3,p=4".toList,
        base64Encode salt, base64Encode (idKey pw salt 3 65536 4 32)] := by
  rw [hashPassword_eq, splitChar_sep_cons,
    splitChar_append '$' _ _ (by decide),
    splitChar_append '$' _ _ (by decide),
    splitChar_append '$' _ _ (by decide),
    splitChar_append '$' _ _ (dollar_not_mem_base64Encode salt hs),
    splitChar_no_sep '$' _ (dollar_not_mem_base64Encode _ hk)]

theorem decodeHash_hashPassword (idKey : KDF) (pw : String) (salt : List Nat)
    (hs : ∀ b ∈ salt, b < 256)
    (hk : ∀ b ∈ idKey pw salt 3 65536 4 32, b < 256) :
    decodeHash (HashPassword idKey pw salt) =
      .ok ({ memory := 65536, time := 3, threads := 4,
             keyLen := (idKey pw salt 3 65536 4 32).length,
             saltLength := salt.length },
           salt, idKey pw salt 3 65536 4 32) := by
  have hv : scanVersion ['v', '=', '1', '9'] = some 19 := rfl
  have hp : scanParams
      ['m', '=', '6', '5', '5', '3', '6', ',', 't', '=', '3', ',', 'p', '=', '4'] =
      some (65536, 3, 4) := rfl
  unfold decodeHash
  rw [splitChar_hashPassword idKey pw salt hs hk]
  simp [hv, hp, base64Decode_base64Encode salt hs,
    base64Decode_base64Encode _ hk, argon2Version]

/-! ### Constant-time comparison and verification -/

theorem zip_all_eq :
    ∀ x y : List Nat, x.length = y.length →
      (((x.zip y).all fun p => p.1 == p.2) = true ↔ x = y)
  | [], [], _ => by simp
  | a :: x, b :: y, h => by
    have hrec := zip_all_eq x y (by simpa using h)
    simp only [List.zip_cons_cons, List.all_cons, Bool.and_eq_true, beq_iff_eq,
      hrec, List.cons.injEq]
  | [], _ :: _, h => by simp at h
  | _ :: _, [], h => by simp at h

theorem constantTimeCompare_eq_one (x y : List Nat) :
    constantTimeCompare x y = 1 ↔ x = y := by
  unfold constantTimeCompare
  by_cases hl : x.length = y.length
  · rw [if_pos hl]
    by_cases ha : ((x.zip y).all fun p => p.1 == p.2) = true
    · rw [if_pos ha]
      have := (zip_all_eq x y hl).mp ha
      simp [this]
    · rw [if_neg ha]
      constructor
      · intro h; omega
      · intro h; exact absurd ((zip_all_eq x y hl).mpr h) ha
  · rw [if_neg hl]
    constructor
    · intro h; omega
    · intro h; subst h; exact absurd rfl hl

theorem verifyPassword_ok (idKey : KDF) (pw : String) (s : List Char)
    (p : Params) (salt stored : List Nat)
    (h : decodeHash s = .ok (p, salt, stored)) :
    VerifyPassword idKey pw s =
      (decide (stored = idKey pw salt p.time p.memory p.threads p.keyLen),
        none) := by
  unfold VerifyPassword
  simp only [h]
  by_cases he : stored = idKey pw salt p.time p.memory p.threads p.keyLen
  · rw [if_pos ((constantTimeCompare_eq_one _ _).mpr he)]
    simp [he]
  · rw [if_neg (fun hc => he ((constantTimeCompare_eq_one _ _).mp hc))]
    simp [he]

theorem verifyPassword_error (idKey : KDF) (pw : String) (s : List Char)
    (e : HashError) :
    VerifyPassword idKey pw s = (false, some e) ↔ decodeHash s = .error e := by
  unfold VerifyPassword
  cases hd : decodeHash s with
  | error e2 => simp
  | ok v =>
    obtain ⟨p, salt, stored⟩ := v
    simp only []
    split <;> simp

/-! ### Characterizing the decode errors -/

theorem decodeHash_invalidHash_of_shape (s : List Char)
    (h : (splitChar '$' s).length ≠ 6 ∨
      (splitChar '$' s).head? ≠ some [] ∨
      (splitChar '$' s)[1]? ≠ some "argon2id".toList) :
    decodeHash s = .error .invalidHash := by
  unfold decodeHash
  split
  · next p0 p1 p2 p3 p4 p5 heq =>
    rw [heq] at h
    simp only [List.length_cons, List.length_nil, List.head?_cons,
      Option.some.injEq, ne_eq, List.getElem?_cons_succ,
      List.getElem?_cons_zero] at h
    have h2 : p0 ≠ [] ∨ p1 ≠ "argon2id".toList := by tauto
    rw [if_pos h2]
  · rfl

theorem decodeHash_incompatible_iff (s : List Char) :
    decodeHash s = .error .incompatibleVersion ↔
      ∃ p2 p3 p4 p5,
        splitChar '$' s = [[], "argon2id".toList, p2, p3, p4, p5] ∧
        ∃ v, scanVersion p2 = some v ∧ v ≠ argon2Version := by
  constructor
  · intro h
    unfold decodeHash at h
    split at h
    · next p0 p1 p2 p3 p4 p5 heq =>
      split at h
      · simp at h
      · next h01 =>
        push_neg at h01
        split at h
        · simp at h
        · next v hv =>
          split at h
          · next hvv =>
            exact ⟨p2, p3, p4, p5, by rw [heq, h01.1, h01.2], v, hv, hvv⟩
          · split at h
            · simp at h
            · split at h
              · simp at h
              · split at h
                · simp at h
                · simp at h
    · simp at h
  · rintro ⟨p2, p3, p4, p5, heq, v, hv, hvv⟩
    unfold decodeHash
    simp [heq, hv, hvv]


/-! ### Session store lemmas -/

theorem lookupSession_setSession_self (sid : String) (s : Session α) :
    ∀ l : List (String × Session α), (lookupSession l sid).isSome →
      lookupSession (setSession l sid s) sid = some s
  | [], h => by simp [lookupSession] at h
  | (k, v) :: rest, h => by
    by_cases hk : k = sid
    · simp [setSession, lookupSession, hk]
    · have h2 : (lookupSession rest sid).isSome := by
        simpa [lookupSession, hk] using h
      simp [setSession, lookupSession, hk,
        lookupSession_setSession_self sid s rest h2]

theorem getSession_none_iff (m : Manager α) (sid : String) (now : Int) :
    (GetSession m sid now).1 = none ↔
      lookupSession m.sessions sid = none ∨
        ∃ s, lookupSession m.sessions sid = some s ∧ s.ExpiresAt < now := by
  unfold GetSession
  cases hl : lookupSession m.sessions sid with
  | none => simp
  | some s =>
    by_cases he : s.ExpiresAt < now
    · simp [he]
    · simp [he]

theorem getSession_some_inv (m : Manager α) (sid : String) (now : Int)
    (s2 : Session α) (m2 : Manager α)
    (h : GetSession m sid now = (some s2, m2)) :
    ∃ s, lookupSession m.sessions sid = some s ∧ ¬ s.ExpiresAt < now ∧
      s2 = { s with ExpiresAt := now + m.expiration } ∧
      m2 = { m with sessions := setSession m.sessions sid s2 } := by
  unfold GetSession at h
  split at h
  · simp at h
  · next s hl =>
    split at h
    · simp at h
    · next he =>
      simp only [Prod.mk.injEq, Option.some.injEq] at h
      exact ⟨s, hl, he, h.1.symm, by rw [← h.1]; exact h.2.symm⟩

theorem isKDF_idKeyZero : IsKDF idKeyZero := by
  intro pw salt t m th kl
  constructor
  · simp [idKeyZero]
  · intro b hb
    rw [List.eq_of_mem_replicate hb]
    norm_num

theorem isKDF_idKeyLen : IsKDF idKeyLen := by
  intro pw salt t m th kl
  constructor
  · simp [idKeyLen]
  · intro b hb
    simp only [idKeyLen] at hb
    rcases List.mem_or_eq_of_mem_set hb with h | h
    · rw [List.eq_of_mem_replicate h]; norm_num
    · rw [h]; exact Nat.mod_lt _ (by norm_num)

theorem verifyPassword_hashPassword_true (idKey : KDF) (hkdf : IsKDF idKey)
    (pw : String) (salt : List Nat) (hb : ∀ b ∈ salt, b < 256) :
    VerifyPassword idKey pw (HashPassword idKey pw salt) = (true, none) := by
  have hk := (hkdf pw salt 3 65536 4 32).2
  have hkl := (hkdf pw salt 3 65536 4 32).1
  have hd := decodeHash_hashPassword idKey pw salt hb hk
  rw [verifyPassword_ok idKey pw _ _ _ _ hd]
  simp [hkl]

theorem decodeHash_lengths {s : List Char} {p : Params} {salt stored : List Nat}
    (h : decodeHash s = .ok (p, salt, stored)) :
    p.keyLen = stored.length ∧ p.saltLength = salt.length := by
  unfold decodeHash at h
  split at h
  · split at h
    · simp at h
    · split at h
      · simp at h
      · split at h
        · simp at h
        · split at h
          · simp at h
          · split at h
            · simp at h
            · split at h
              · simp at h
              · simp only [Except.ok.injEq, Prod.mk.injEq] at h
                obtain ⟨hp, hsalt, hstored⟩ := h
                subst hp
                subst hsalt
                subst hstored
                exact ⟨rfl, rfl⟩
  · simp at h


/-! ### Claims -/

/-- C1: for every password and salt drawn from the random source,
verifying the password against the string `HashPassword` produced from
it succeeds as `(true, nil)`, for any key-derivation function meeting
`argon2.IDKey`'s contract. -/
theorem verify_of_hash_roundTrip (idKey : KDF) (hkdf : IsKDF idKey)
    (pw : String) (salt : List Nat) (hbytes : ∀ b ∈ salt, b < 256) :
    VerifyPassword idKey pw (HashPassword idKey pw salt) = (true, none) :=
  verifyPassword_hashPassword_true idKey hkdf pw salt hbytes

/-- Witness for C1 at a concrete KDF, password and 16-byte salt. -/
theorem verify_of_hash_roundTrip_witness :
    VerifyPassword idKeyZero "correct-password"
      (HashPassword idKeyZero "correct-password" (List.replicate 16 0)) =
      (true, none) :=
  verify_of_hash_roundTrip idKeyZero isKDF_idKeyZero "correct-password"
    (List.replicate 16 0) (by decide)

/-- C2 counterexample: on a malformed version field, `VerifyPassword`
returns the forwarded scan error, which is not `ErrInvalidHash` — the
claim that every deviation yields `InvalidHashFormat` is false. -/
theorem verify_malformed_version_counterexample :
    VerifyPassword idKeyZero "p" "$argon2id$vX$m=1,t=1,p=1$AA$AA".toList =
      (false, some HashError.scanFailure) ∧
    HashError.scanFailure ≠ HashError.invalidHash := by
  exact ⟨rfl, by decide⟩

/-- C2 (amended): a deviation in the segment count, the leading segment
or the algorithm tag yields `(false, ErrInvalidHash)`; every deviation
`decodeHash` rejects (including malformed version, malformed cost
parameters, invalid base64) yields `matched = false` with the decoder's
own error — never success. -/
theorem verify_malformed_input (idKey : KDF) (pw : String) (s : List Char) :
    ((splitChar '$' s).length ≠ 6 ∨
        (splitChar '$' s).head? ≠ some [] ∨
        (splitChar '$' s)[1]? ≠ some "argon2id".toList →
      VerifyPassword idKey pw s = (false, some HashError.invalidHash)) ∧
    (∀ e, decodeHash s = .error e → VerifyPassword idKey pw s = (false, some e)) := by
  constructor
  · intro h
    exact (verifyPassword_error idKey pw s _).mpr (decodeHash_invalidHash_of_shape s h)
  · intro e he
    exact (verifyPassword_error idKey pw s e).mpr he

/-- Witness for C2 (amended) on a 2-segment input. -/
theorem verify_malformed_input_witness :
    VerifyPassword idKeyZero "p" "too$few".toList =
      (false, some HashError.invalidHash) :=
  (verify_malformed_input idKeyZero "p" "too$few".toList).1 (by decide)

/-- C3 counterexample: in `boundaryManager` the entry's deadline is 10
and was set at instant 0 with lifetime 10, so at instant 10 the elapsed
time since the last access equals the lifetime exactly; the claim says
this is NotFound, yet `GetSession` returns the session. -/
theorem getSession_boundary_counterexample :
    (GetSession boundaryManager "abc" 10).1 =
      some { ID := "abc", Values := [], ExpiresAt := 20 } ∧
    (GetSession boundaryManager "abc" 10).1 ≠ none := by
  exact ⟨rfl, by decide⟩

/-- C3 (amended): `GetSession` fails exactly when the id is absent or
the entry's deadline is strictly before the instant of the call; at the
boundary `ExpiresAt = now` (elapsed time equal to the lifetime) the
session is still returned; and a returned session always comes from an
entry whose deadline had not passed. -/
theorem getSession_notFound_characterization (m : Manager α) (sid : String)
    (now : Int) :
    ((GetSession m sid now).1 = none ↔
      lookupSession m.sessions sid = none ∨
        ∃ s, lookupSession m.sessions sid = some s ∧ s.ExpiresAt < now) ∧
    (∀ s2, (GetSession m sid now).1 = some s2 →
      ∃ s, lookupSession m.sessions sid = some s ∧ now ≤ s.ExpiresAt) := by
  constructor
  · exact getSession_none_iff m sid now
  · intro s2 h
    have hfull : GetSession m sid now = (some s2, (GetSession m sid now).2) :=
      Prod.ext_iff.mpr ⟨h, rfl⟩
    obtain ⟨s, hl, he, _, _⟩ := getSession_some_inv m sid now s2 _ hfull
    exact ⟨s, hl, by omega⟩

/-- Witness for C3 (amended): absent id gives NotFound; the boundary
entry of `boundaryManager` is returned with its deadline intact. -/
theorem getSession_notFound_characterization_witness :
    (GetSession boundaryManager "zzz" 0).1 = none ∧
    ∃ s, lookupSession boundaryManager.sessions "abc" = some s ∧
      (10 : Int) ≤ s.ExpiresAt :=
  ⟨(getSession_notFound_characterization boundaryManager "zzz" 0).1.mpr
      (Or.inl (by decide)),
    (getSession_notFound_characterization boundaryManager "abc" 10).2
      { ID := "abc", Values := [], ExpiresAt := 20 } rfl⟩

/-- C4: a successful `GetSession` sets the session's deadline to
`now + lifetime` (in the returned session and in the stored entry), so
a further access within the lifetime of that access succeeds — again
refreshing — and an access strictly after the refreshed deadline is
NotFound. -/
theorem getSession_sliding_refresh (m : Manager α) (sid : String) (now : Int)
    (s2 : Session α) (m2 : Manager α)
    (h : GetSession m sid now = (some s2, m2)) :
    s2.ExpiresAt = now + m.expiration ∧
    lookupSession m2.sessions sid = some s2 ∧
    (∀ later : Int, later ≤ now + m.expiration →
      ∃ s3, (GetSession m2 sid later).1 = some s3 ∧
        s3.ExpiresAt = later + m.expiration) ∧
    (∀ later : Int, now + m.expiration < later →
      (GetSession m2 sid later).1 = none) := by
  obtain ⟨s, hl, he, hs2, hm2⟩ := getSession_some_inv m sid now s2 m2 h
  have hexp : s2.ExpiresAt = now + m.expiration := by rw [hs2]
  have hlook : lookupSession m2.sessions sid = some s2 := by
    rw [hm2]
    exact lookupSession_setSession_self sid s2 m.sessions (by rw [hl]; rfl)
  have hexp2 : m2.expiration = m.expiration := by rw [hm2]
  refine ⟨hexp, hlook, ?_, ?_⟩
  · intro later hle
    simp only [GetSession, hlook]
    rw [if_neg (by omega)]
    exact ⟨{ s2 with ExpiresAt := later + m2.expiration }, rfl, by simp [hexp2]⟩
  · intro later hlt
    simp only [GetSession, hlook]
    rw [if_pos (by omega)]

/-- Witness for C4: in `exampleManager` (lifetime 120, entry deadline
120), an access at instant 90 refreshes the deadline to 210; a second
access at 210 still succeeds and refreshes to 330, one at 211 on the
same refreshed store is NotFound. -/
theorem getSession_sliding_refresh_witness :
    (∃ s3,
      (GetSession
          ({ sessions := [("abc", { ID := "abc", Values := [], ExpiresAt := 210 })],
             expiration := 120 } : Manager Nat)
          "abc" 210).1 = some s3 ∧
      s3.ExpiresAt = 210 + exampleManager.expiration) ∧
    (GetSession
        ({ sessions := [("abc", { ID := "abc", Values := [], ExpiresAt := 210 })],
           expiration := 120 } : Manager Nat)
        "abc" 211).1 = none :=
  ⟨(getSession_sliding_refresh exampleManager "abc" 90
      { ID := "abc", Values := [], ExpiresAt := 210 }
      ({ sessions := [("abc", { ID := "abc", Values := [], ExpiresAt := 210 })],
         expiration := 120 } : Manager Nat) rfl).2.2.1 210 (by decide),
    (getSession_sliding_refresh exampleManager "abc" 90
      { ID := "abc", Values := [], ExpiresAt := 210 }
      ({ sessions := [("abc", { ID := "abc", Values := [], ExpiresAt := 210 })],
         expiration := 120 } : Manager Nat) rfl).2.2.2 211 (by decide)⟩

/-- C5: for every well-formed encoded hash, `VerifyPassword` re-derives
the candidate key with the cost parameters, salt and key length parsed
from the string itself and returns `(true, nil)` or `(false, nil)`
according to key equality — a mismatch is a result, not an error; in
particular verifying a password whose derived key differs from the
hashed password's key yields `(false, nil)`. -/
theorem verify_uses_embedded_params (idKey : KDF) (hkdf : IsKDF idKey) :
    (∀ pw s p salt stored, decodeHash s = .ok (p, salt, stored) →
      VerifyPassword idKey pw s =
        (decide (stored = idKey pw salt p.time p.memory p.threads p.keyLen),
          none)) ∧
    (∀ pw q salt, (∀ b ∈ salt, b < 256) →
      idKey pw salt 3 65536 4 32 ≠ idKey q salt 3 65536 4 32 →
      VerifyPassword idKey q (HashPassword idKey pw salt) = (false, none)) := by
  constructor
  · intro pw s p salt stored h
    exact verifyPassword_ok idKey pw s p salt stored h
  · intro pw q salt hb hne
    have hk := (hkdf pw salt 3 65536 4 32).2
    have hkl := (hkdf pw salt 3 65536 4 32).1
    have hd := decodeHash_hashPassword idKey pw salt hb hk
    rw [verifyPassword_ok idKey q _ _ _ _ hd]
    simp only [hkl]
    simp [hne]

/-- Witness for C5: with a password-dependent KDF, the wrong password
fails to verify as a result, not an error. -/
theorem verify_uses_embedded_params_witness :
    VerifyPassword idKeyLen "bb" (HashPassword idKeyLen "a" (List.replicate 16 0)) =
      (false, none) :=
  (verify_uses_embedded_params idKeyLen isKDF_idKeyLen).2 "a" "bb"
    (List.replicate 16 0) (by decide) (by decide)

/-- C6: `VerifyPassword` fails with `IncompatibleVersion` exactly when
the input has 6 `$`-delimited segments with an empty leading segment and
the `argon2id` tag, and a parseable version field whose value differs
from `argon2.Version`; with a matching version it can never produce this
error, so verification proceeds. -/
theorem verify_incompatibleVersion_iff (idKey : KDF) (pw : String)
    (s : List Char) :
    VerifyPassword idKey pw s = (false, some HashError.incompatibleVersion) ↔
      ∃ p2 p3 p4 p5,
        splitChar '$' s = [[], "argon2id".toList, p2, p3, p4, p5] ∧
        ∃ v, scanVersion p2 = some v ∧ v ≠ argon2Version := by
  rw [verifyPassword_error]
  exact decodeHash_incompatible_iff s

/-- Witness for C6 on a version-18 hash string. -/
theorem verify_incompatibleVersion_iff_witness :
    VerifyPassword idKeyZero "p" "$argon2id$v=18$m=1,t=1,p=1$AA$AA".toList =
      (false, some HashError.incompatibleVersion) :=
  (verify_incompatibleVersion_iff idKeyZero "p" _).mpr
    ⟨"v=18".toList, "m=1,t=1,p=1".toList, "AA".toList, "AA".toList, by decide,
      18, by decide, by decide⟩

/-- C7: two `HashPassword` calls on the same password drawing different
salts produce different encoded strings, and each of the two strings
verifies against the password. -/
theorem hash_fresh_salts_distinct (idKey : KDF) (hkdf : IsKDF idKey)
    (pw : String) (salt1 salt2 : List Nat)
    (h1 : ∀ b ∈ salt1, b < 256) (h2 : ∀ b ∈ salt2, b < 256)
    (hne : salt1 ≠ salt2) :
    HashPassword idKey pw salt1 ≠ HashPassword idKey pw salt2 ∧
    VerifyPassword idKey pw (HashPassword idKey pw salt1) = (true, none) ∧
    VerifyPassword idKey pw (HashPassword idKey pw salt2) = (true, none) := by
  refine ⟨?_, verifyPassword_hashPassword_true idKey hkdf pw salt1 h1,
    verifyPassword_hashPassword_true idKey hkdf pw salt2 h2⟩
  intro he
  have hs1 := splitChar_hashPassword idKey pw salt1 h1 (hkdf pw salt1 3 65536 4 32).2
  have hs2 := splitChar_hashPassword idKey pw salt2 h2 (hkdf pw salt2 3 65536 4 32).2
  rw [he, hs2] at hs1
  simp only [List.cons.injEq] at hs1
  exact hne (base64Encode_inj h2 h1 hs1.2.2.2.2.1).symm

/-- Witness for C7 with the all-0 and all-1 16-byte salts. -/
theorem hash_fresh_salts_distinct_witness :
    HashPassword idKeyZero "pw" (List.replicate 16 0) ≠
      HashPassword idKeyZero "pw" (List.replicate 16 1) ∧
    VerifyPassword idKeyZero "pw"
      (HashPassword idKeyZero "pw" (List.replicate 16 0)) = (true, none) :=
  ⟨(hash_fresh_salts_distinct idKeyZero isKDF_idKeyZero "pw"
      (List.replicate 16 0) (List.replicate 16 1)
      (by decide) (by decide) (by decide)).1,
    (hash_fresh_salts_distinct idKeyZero isKDF_idKeyZero "pw"
      (List.replicate 16 0) (List.replicate 16 1)
      (by decide) (by decide) (by decide)).2.1⟩

/-- C8: a sweep at instant `now` keeps exactly the entries whose
deadline has not passed, removes exactly the expired ones, and running
it twice at the same instant changes nothing the second time. -/
theorem cleanup_removes_exactly_expired (m : Manager α) (now : Int) :
    (∀ sid s, (sid, s) ∈ (cleanupExpiredSessions m now).sessions ↔
      ((sid, s) ∈ m.sessions ∧ ¬ s.ExpiresAt < now)) ∧
    cleanupExpiredSessions (cleanupExpiredSessions m now) now =
      cleanupExpiredSessions m now := by
  constructor
  · intro sid s
    simp [cleanupExpiredSessions, List.mem_filter]
  · simp [cleanupExpiredSessions, List.filter_filter]

/-- Witness for C8 on `sweepManager` at instant 5: the live entry stays,
the expired one is gone. -/
theorem cleanup_removes_exactly_expired_witness :
    ("b", { ID := "b", Values := [], ExpiresAt := 100 }) ∈
      (cleanupExpiredSessions sweepManager 5).sessions ∧
    ¬("a", { ID := "a", Values := [], ExpiresAt := 3 }) ∈
      (cleanupExpiredSessions sweepManager 5).sessions :=
  ⟨((cleanup_removes_exactly_expired sweepManager 5).1 "b" _).mpr
      ⟨by decide, by decide⟩,
    fun h =>
      (((cleanup_removes_exactly_expired sweepManager 5).1 "a" _).mp h).2
        (by decide)⟩

/-- C9 (evaluation of the code at the failing path): on `GetSession`'s
success path the write to `session.ExpiresAt` (session.go line 69) is
step 4, after `mu.RUnlock()` (line 62): at that step zero write locks
and zero read locks are held, so the sliding-expiration refresh is not
serialized against concurrent writers, contradicting the claim that the
mutation happens only under write-level exclusivity.  (For contrast,
`CreateSession`'s map write does happen under the write lock.) -/
theorem getSession_refresh_write_without_lock :
    getSessionSuccessSteps[4]? = some StoreStep.writeExpiresAt ∧
    writeLocksHeld (getSessionSuccessSteps.take 4) = 0 ∧
    readLocksHeld (getSessionSuccessSteps.take 4) = 0 ∧
    createSessionSteps[1]? = some StoreStep.writeMap ∧
    writeLocksHeld (createSessionSteps.take 1) = 1 := by
  decide

/-- C10 counterexample: on the well-formed encoded hash whose
derived-key segment decodes to the empty byte string, the verification
crashes inside `argon2.IDKey` (`keyLen = 0` panics before the KDF body
can run), instead of returning `(true, nil)` as the claim states. -/
theorem verify_empty_key_counterexample :
    VerifyPasswordExec idKeyZero "any-password"
        "$argon2id$v=19$m=1,t=1,p=1$AA$".toList = none ∧
    VerifyPasswordExec idKeyZero "any-password"
        "$argon2id$v=19$m=1,t=1,p=1$AA$".toList ≠ some (true, none) := by
  exact ⟨rfl, by decide⟩

/-- C10 (amended): `decodeHash` takes the salt length and derived-key
length from the decoded segments of the encoded string, not from the
defaults; a well-formed hash whose parsed time, parallelism and decoded
key length are nonzero is verified without error, the candidate key
re-derived at the stored key's length; but when the derived-key segment
decodes to the empty byte string the re-derivation panics inside
`argon2.IDKey`, so the verification crashes rather than returning
`(true, nil)`. -/
theorem verify_lengths_parsed_and_empty_key_panics (idKey : KDF) (pw : String)
    (s : List Char) (p : Params) (salt stored : List Nat)
    (h : decodeHash s = .ok (p, salt, stored)) :
    (p.keyLen = stored.length ∧ p.saltLength = salt.length) ∧
    (p.time ≠ 0 → p.threads ≠ 0 → p.keyLen ≠ 0 →
      VerifyPasswordExec idKey pw s =
        some (decide (stored = idKey pw salt p.time p.memory p.threads p.keyLen),
          none)) ∧
    (stored = [] → VerifyPasswordExec idKey pw s = none) := by
  have hlen := decodeHash_lengths h
  refine ⟨hlen, ?_, ?_⟩
  · intro ht hth hkl
    have hp : idKeyPanics p.time p.threads p.keyLen = false := by
      simp [idKeyPanics, ht, hth, hkl]
    unfold VerifyPasswordExec
    simp only [h, hp, Bool.false_eq_true, if_false]
    by_cases he : stored = idKey pw salt p.time p.memory p.threads p.keyLen
    · rw [if_pos ((constantTimeCompare_eq_one _ _).mpr he)]
      simp [he]
    · rw [if_neg (fun hc => he ((constantTimeCompare_eq_one _ _).mp hc))]
      simp [he]
  · intro h0
    have hk0 : p.keyLen = 0 := by rw [hlen.1, h0]; rfl
    unfold VerifyPasswordExec
    simp [h, idKeyPanics, hk0]

/-- Witness for C10 (amended): a non-default, nonzero key length (one
byte) verifies positively without error, and the empty-key hash
panics. -/
theorem verify_lengths_parsed_and_empty_key_panics_witness :
    VerifyPasswordExec idKeyZero "p" "$argon2id$v=19$m=1,t=1,p=1$AA$AA".toList =
      some (true, none) ∧
    VerifyPasswordExec idKeyZero "p" "$argon2id$v=19$m=1,t=1,p=1$AA$".toList =
      none :=
  ⟨((verify_lengths_parsed_and_empty_key_panics idKeyZero "p"
        "$argon2id$v=19$m=1,t=1,p=1$AA$AA".toList
        { memory := 1, time := 1, threads := 1, keyLen := 1, saltLength := 1 }
        [0] [0] rfl).2.1 (by decide) (by decide) (by decide)).trans (by decide),
    (verify_lengths_parsed_and_empty_key_panics idKeyZero "p"
        "$argon2id$v=19$m=1,t=1,p=1$AA$".toList
        { memory := 1, time := 1, threads := 1, keyLen := 0, saltLength := 1 }
        [0] [] rfl).2.2 rfl⟩

end Going
